import Mathlib

/-!
# Verification of the duplis duplicate-file finder

Shallow embedding of the relevant parts of the duplis source
(`src/main.rs`, `src/file_set_refiner.rs`, `src/file_filters.rs`,
`src/parse_cli/mod.rs`, `src/parse_cli/parse_file_size.rs`,
`src/set_consumer.rs`, `src/set_order.rs`) together with theorems that
settle the specification claims about it.

Paths are abstracted as natural-number identifiers; file contents as
lists of naturals (byte values); the filesystem and refiner behaviour
are passed in explicitly as data, so that every embedded operation is a
pure, executable Lean function mirroring the Rust control flow.
-/

namespace Duplis

/-- `CheckEqualsErrorOn` (src/file_set_refiner.rs): which side of a
pairwise equality check suffered an I/O error. -/
inductive CheckEqualsErrorOn
  | First
  | Second
  | Both
deriving DecidableEq, Repr

/-- `CheckEqualsErrorOn::is_faulty` (src/file_set_refiner.rs lines 47-54):
`(first_faulty, second_faulty)`. -/
def CheckEqualsErrorOn.is_faulty : CheckEqualsErrorOn → Bool × Bool
  | .First => (true, false)
  | .Second => (false, true)
  | .Both => (true, true)

/-- `FileSetRefiners::check_equal` (src/file_set_refiner.rs lines 25-31).
The Rust body is `for refiner in self.0.iter_mut() { refiner.check_equal(a, b)?; } Ok(true)`:
each refiner's `Result<bool, CheckEqualsErrorOn>` on the fixed pair `(a, b)`
is unwrapped with `?` (propagating errors) and its boolean payload is
dropped; afterwards `Ok(true)` is returned.  `results` is the list of the
individual refiners' results on `(a, b)`, in refiner order. -/
def FileSetRefiners.check_equal :
    List (Except CheckEqualsErrorOn Bool) → Except CheckEqualsErrorOn Bool
  | [] => .ok true
  | .error e :: _ => .error e
  | .ok _ :: rest => FileSetRefiners.check_equal rest

/-! ## Byte-wise content comparison (`FileContentEquals::check_equal`,
src/file_set_refiner.rs lines 108-145)

One side of a comparison is modelled as the outcomes the filesystem hands
the Rust code: whether `File::open` succeeds, whether `metadata()`
succeeds, the size reported by the metadata, and the successive results
of `read` into the 64-byte buffer (`Ok chunk` delivers the bytes read,
`Err` an I/O error).  Once the listed reads are exhausted every further
`read` returns 0 bytes (persistent EOF). -/

/-- The filesystem-visible behaviour of one file during
`FileContentEquals::check_equal`. -/
structure SideFile where
  openOk : Bool
  metaOk : Bool
  size : Nat
  reads : List (Except Unit (List Nat))
deriving Repr

/-- The read loop of `FileContentEquals::check_equal`
(src/file_set_refiner.rs lines 131-144): read `a` (error ⇒ `First`),
`l == 0` ⇒ `Ok(true)`; read `b` (error ⇒ `Second`);
`l != l2 || buf_a[..l] != buf_b[..l]` ⇒ `Ok(false)`; otherwise repeat. -/
def ceLoop :
    List (Except Unit (List Nat)) → List (Except Unit (List Nat)) →
    Except CheckEqualsErrorOn Bool
  | [], _ => .ok true
  | .error _ :: _, _ => .error .First
  | .ok ca :: ra, rb =>
    if ca.length = 0 then .ok true
    else
      match rb with
      | [] => .ok false
      | .error _ :: _ => .error .Second
      | .ok cb :: rb' =>
        if ca.length ≠ cb.length then .ok false
        else if ca ≠ cb then .ok false
        else ceLoop ra rb'

/-- `FileContentEquals::check_equal` (src/file_set_refiner.rs lines
108-145): open `a` (error ⇒ `First`), open `b` (error ⇒ `Second`),
metadata of `a` (error ⇒ `First`), metadata of `b` (error ⇒ `Second`);
differing sizes ⇒ `Ok(false)`; otherwise the lockstep read loop. -/
def FileContentEquals.check_equal (a b : SideFile) :
    Except CheckEqualsErrorOn Bool :=
  if a.openOk = false then .error .First
  else if b.openOk = false then .error .Second
  else if a.metaOk = false then .error .First
  else if b.metaOk = false then .error .Second
  else if a.size ≠ b.size then .ok false
  else ceLoop a.reads b.reads

/-- Splits a byte list into the chunks successive 64-byte-buffer reads of
a well-behaved file return: each read delivers `min 64 remaining` bytes. -/
def chunks64 (l : List Nat) : List (List Nat) :=
  if h : l = [] then []
  else l.take 64 :: chunks64 (l.drop 64)
termination_by l.length
decreasing_by
  simp only [List.length_drop]
  exact Nat.sub_lt (List.length_pos.mpr h) (by norm_num)

/-- The `SideFile` of an intact, unchanging file with the given content:
opening and metadata succeed, the size is the content length, and reads
deliver the content in 64-byte chunks. -/
def fileOf (content : List Nat) : SideFile :=
  ⟨true, true, content.length, (chunks64 content).map .ok⟩

/-! ## Hash-and-group engine (`hash_file` and `place_into_file_set`,
src/main.rs lines 187-277)

Paths are abstracted to `Nat` identifiers.  The environment a worker
observes for one file (open result, the two metadata snapshots around
hashing, the digest) is passed in as data; a refiner is abstracted to the
function the trait object realises: its `check_equal` outcome on a pair
of paths. -/

/-- `HashFileError` (src/main.rs lines 36-39). -/
inductive HashFileError
  | ioError
  | FileChanged
deriving DecidableEq, Repr

/-- What the filesystem hands `hash_file` for one file: whether the
read-only open succeeds, the first `metadata()` result (`none` = I/O
error; `some t` carries `metadata.modified().ok() = t`, where an inner
`none` means the platform exposes no modification time), whether
streaming the content into the hasher succeeds, the second `metadata()`
result, and the resulting content digest. -/
structure FsFile where
  openOk : Bool
  meta1 : Option (Option Nat)
  readOk : Bool
  meta2 : Option (Option Nat)
  contentHash : Nat
deriving DecidableEq, Repr

/-- `hash_file` (src/main.rs lines 255-270): open, first metadata
snapshot (`before_mod_time = metadata.modified().ok()`), stream-hash,
second snapshot; `before == after` yields `Ok((hash, before))`, anything
unequal yields `Err(FileChanged)`; I/O failures yield `Err(IO)`. -/
def hash_file (f : FsFile) : Except HashFileError (Nat × Option Nat) :=
  if f.openOk = false then .error .ioError
  else
    match f.meta1 with
    | none => .error .ioError
    | some before =>
      if f.readOk = false then .error .ioError
      else
        match f.meta2 with
        | none => .error .ioError
        | some after =>
          if before = after then .ok (f.contentHash, before)
          else .error .FileChanged

/-- `HashedFile` (src/main.rs lines 72-76), the path abstracted to an
identifier. -/
structure HashedFile where
  file_version_timestamp : Option Nat
  file_path : Nat
deriving DecidableEq, Repr

/-- Outcome of the inner refiner loop of `place_into_file_set`. -/
inductive RefLoopResult
  | allEqual
  | notEqual
  | firstFaulty
  | secondFaulty
deriving DecidableEq, Repr

/-- The inner `for refiner in refiners` loop of `place_into_file_set`
(src/main.rs lines 229-247), with the pair `(check_against, file)` fixed:
`Ok(true)` moves to the next refiner; `Ok(false)` is `continue 'set_loop`
(`notEqual`); on an error, `is_faulty` is consulted: a faulty first side
breaks out of the refiner loop (`firstFaulty`, after `set.remove(0)`),
a faulty second side returns `Err(AlreadyReportedError)`
(`secondFaulty`); otherwise the loop continues. -/
def refLoop (refiners : List (Nat → Nat → Except CheckEqualsErrorOn Bool))
    (a b : Nat) : RefLoopResult :=
  match refiners with
  | [] => .allEqual
  | r :: rs =>
    match r a b with
    | .ok true => refLoop rs a b
    | .ok false => .notEqual
    | .error err =>
      if (err.is_faulty).1 then .firstFaulty
      else if (err.is_faulty).2 then .secondFaulty
      else refLoop rs a b

/-- The `'set_loop` of `place_into_file_set` (src/main.rs lines 217-251)
over the course bucket: sets whose secondary hash differs from
`file_hash` are skipped; an empty set receives the file and the loop
breaks; otherwise the refiner loop runs against the set's first element:
`notEqual` moves on to the next set, `allEqual` appends the file and
breaks, `firstFaulty` removes the first element, then (falling out of the
refiner loop) appends the file and breaks, `secondFaulty` returns
`Err(AlreadyReportedError)` (second component `true`). -/
def setLoop (refiners : List (Nat → Nat → Except CheckEqualsErrorOn Bool))
    (file_hash : Nat) (new_file : HashedFile) :
    List (Nat × List HashedFile) → List (Nat × List HashedFile) × Bool
  | [] => ([], false)
  | (shash, s) :: rest =>
    if shash = file_hash then
      match s with
      | [] => ((shash, [new_file]) :: rest, false)
      | first :: _ =>
        match refLoop refiners first.file_path new_file.file_path with
        | .notEqual =>
          let res := setLoop refiners file_hash new_file rest
          ((shash, s) :: res.1, res.2)
        | .allEqual => ((shash, s ++ [new_file]) :: rest, false)
        | .firstFaulty => ((shash, s.tail ++ [new_file]) :: rest, false)
        | .secondFaulty => ((shash, s) :: rest, true)
    else
      let res := setLoop refiners file_hash new_file rest
      ((shash, s) :: res.1, res.2)

/-- The shared map (`HashMap<u128, Vec<(u128, Vec<HashedFile>)>>`,
src/main.rs line 104), as an association list keyed by composite
digest. -/
abbrev TargetMap := List (Nat × List (Nat × List HashedFile))

/-- The bucket `target.entry(hash)` refers to, empty when absent. -/
def bucketFor (m : TargetMap) (k : Nat) : List (Nat × List HashedFile) :=
  match m with
  | [] => []
  | (k', b) :: rest => if k' = k then b else bucketFor rest k

/-- Store a bucket under a key (replace an existing entry or append). -/
def mapSet (m : TargetMap) (k : Nat) (b : List (Nat × List HashedFile)) :
    TargetMap :=
  match m with
  | [] => [(k, b)]
  | (k', b') :: rest =>
    if k' = k then (k, b) :: rest else (k', b') :: mapSet rest k b

/-- Everything `place_into_file_set` draws from the environment for one
incoming file: the `hash_file` behaviour, the path identifier, whether
every refiner's `hash_component` call succeeds, and the composite digest
obtained after the refiner components are hashed in. -/
structure WorkItem where
  file : FsFile
  path : Nat
  hashCompOk : Bool
  composite : Nat

/-- `place_into_file_set` (src/main.rs lines 187-253): hash the file
(errors are logged and reported as `AlreadyReportedError`, second
component `true`); extend the hash by the refiner components (an error
short-circuits); fetch the course bucket for the composite digest; an
empty bucket receives a fresh set containing only this file; otherwise
the `'set_loop` runs.  Returns the updated map and whether
`Err(AlreadyReportedError)` was returned. -/
def place_into_file_set (w : WorkItem)
    (refiners : List (Nat → Nat → Except CheckEqualsErrorOn Bool))
    (target : TargetMap) : TargetMap × Bool :=
  match hash_file w.file with
  | .error _ => (target, true)
  | .ok (file_hash, modtime) =>
    if w.hashCompOk = false then (target, true)
    else
      let course_set := bucketFor target w.composite
      if course_set.isEmpty then
        (mapSet target w.composite [(file_hash, [⟨modtime, w.path⟩])], false)
      else
        let res := setLoop refiners file_hash ⟨modtime, w.path⟩ course_set
        (mapSet target w.composite res.1, res.2)

/-- Refiner chain for the C2 evidence: the single refiner reports an
error on the first side when verifying against path 1 and reports
byte-wise inequality against any other first path. -/
def refinersC2 : List (Nat → Nat → Except CheckEqualsErrorOn Bool) :=
  [fun a _ => if a = 1 then .error .First else .ok false]

/-- Work item for the C2 evidence: an intact file with path 3, content
digest 7 and composite digest 9. -/
def workItemC2 : WorkItem := ⟨⟨true, some none, true, some none, 7⟩, 3, true, 9⟩

/-- Shared map for the C2 evidence: composite digest 9 holds one set with
secondary digest 7 containing paths 1 and 2. -/
def targetC2 : TargetMap := [(9, [(7, [⟨none, 1⟩, ⟨none, 2⟩])])]

/-! ## Size filters (src/file_filters.rs lines 144-176 and
src/parse_cli/mod.rs lines 437-442) -/

/-- `MinSizeFileFilter::filter_file_metadata` (src/file_filters.rs lines
150-159): keeps a file iff `metadata.len() > self.0`. -/
def MinSizeFileFilter.keep (bound len : Nat) : Bool := decide (bound < len)

/-- `MaxSizeFileFilter::filter_file_metadata` (src/file_filters.rs lines
167-176): keeps a file iff `metadata.len() < self.0`. -/
def MaxSizeFileFilter.keep (bound len : Nat) : Bool := decide (len < bound)

/-- `parse_file_filter` (src/parse_cli/mod.rs lines 440-442):
`--minsize=v` installs `MinSizeFileFilter::new(v.saturating_sub(1))`;
`Nat` subtraction is saturating. -/
def cliMinSizeKeep (v len : Nat) : Bool := MinSizeFileFilter.keep (v - 1) len

/-- `parse_file_filter` (src/parse_cli/mod.rs lines 437-439):
`--maxsize=v` installs `MaxSizeFileFilter::new(v)`. -/
def cliMaxSizeKeep (v len : Nat) : Bool := MaxSizeFileFilter.keep v len

/-- Files of the sizes `{0,1,2,3,4}` surviving the CLI-configured minimum
size filter. -/
def sizeSurvivorsMin (v : Nat) : List Nat := [0,1,2,3,4].filter (cliMinSizeKeep v)

/-- Files of the sizes `{0,1,2,3,4}` surviving the CLI-configured maximum
size filter. -/
def sizeSurvivorsMax (v : Nat) : List Nat := [0,1,2,3,4].filter (cliMaxSizeKeep v)

/-! ## Finalisation loop (src/main.rs lines 116-132) -/

/-- One ordering of the user's ordering stack, abstracted to the function
`SetOrder::order` realises on the set it mutates: the reordered (possibly
shrunk, since orderings drop files whose metadata became inaccessible)
set together with the success flag (`false` = `Err(AlreadyReportedError)`,
which makes the main loop break out of the ordering stack). -/
abbrev OrderFn := List HashedFile → List HashedFile × Bool

/-- The `for order in &mut order_set` loop (src/main.rs lines 120-124):
apply the orderings in sequence, stopping at the first error (the
partially reordered set is kept). -/
def runOrders : List OrderFn → List HashedFile → List HashedFile
  | [], s => s
  | o :: os, s =>
    let res := o s
    if res.2 then runOrders os res.1 else res.1

/-- The finalisation loop of `main` (src/main.rs lines 116-132): for each
sealed set, skip it if `len <= 1`; run the ordering stack; skip if
`len <= 1` again; hand the set to `consume_set`, stopping after the first
consumer error.  Returns the list of sets handed to `consume_set`, in
order. -/
def finalizeSets (orders : List OrderFn) (consumeOk : List HashedFile → Bool) :
    List (List HashedFile) → List (List HashedFile)
  | [] => []
  | s :: rest =>
    if s.length ≤ 1 then finalizeSets orders consumeOk rest
    else
      let s' := runOrders orders s
      if s'.length ≤ 1 then finalizeSets orders consumeOk rest
      else if consumeOk s' then s' :: finalizeSets orders consumeOk rest
      else [s']

/-! ## Set consumers (src/set_consumer.rs)

File existence is abstracted to a predicate on path identifiers, and a
file action to the function `FileConsumeAction::consume` realises:
its outcome on `(path, original)`. -/

/-- The three outcomes of `FileConsumeAction::consume`
(`Ok`, `Err(Recoverable::Recoverable(..))`, `Err(Recoverable::Fatal(..))`). -/
inductive ActionResult
  | ok
  | recoverable
  | fatal
deriving DecidableEq, Repr

/-- The original-finding loop shared by `UnconditionalAction` and
`InteractiveEachChoice` (src/set_consumer.rs lines 124-133 and 176-185):
pop leading set members whose path no longer exists; the first existing
member is the candidate original, the members after it the duplicates.
`none` when the set runs out (`return Ok(())`). -/
def findOriginal (ex : Nat → Bool) :
    List HashedFile → Option (HashedFile × List HashedFile)
  | [] => none
  | f :: rest => if ex f.file_path then some (f, rest) else findOriginal ex rest

/-- The duplicate loop of `UnconditionalAction::consume_set`
(src/set_consumer.rs lines 134-150): skip duplicates that no longer
exist; apply the action to each existing one; a fatal action error
aborts with `Err(AlreadyReportedError)` (flag `false`).  Returns the
attempted `(duplicate, original)` action invocations and the success
flag. -/
def uncondLoop (ex : Nat → Bool) (act : Nat → Nat → ActionResult) (orig : Nat) :
    List HashedFile → List (Nat × Nat) × Bool
  | [] => ([], true)
  | f :: rest =>
    if ex f.file_path then
      match act f.file_path orig with
      | .fatal => ([(f.file_path, orig)], false)
      | _ =>
        let res := uncondLoop ex act orig rest
        ((f.file_path, orig) :: res.1, res.2)
    else uncondLoop ex act orig rest

/-- `UnconditionalAction::consume_set` (src/set_consumer.rs lines
122-153). -/
def UnconditionalAction.consume_set (ex : Nat → Bool)
    (act : Nat → Nat → ActionResult) (set : List HashedFile) :
    List (Nat × Nat) × Bool :=
  match findOriginal ex set with
  | none => ([], true)
  | some (orig, dups) => uncondLoop ex act orig.file_path dups

/-- Rust `u8::to_ascii_lowercase`, on a character (ASCII-only fold). -/
def asciiLower (c : Char) : Char :=
  if 'A' ≤ c ∧ c ≤ 'Z' then Char.ofNat (c.toNat + 32) else c

/-- Rust `str::eq_ignore_ascii_case`; strings are modelled as their
character lists. -/
def eqIgnoreAsciiCase (a b : List Char) : Bool :=
  a.map asciiLower == b.map asciiLower

/-- The ASCII portion of Rust's `char::is_whitespace` (the `White_Space`
property): tab, LF, VT, FF, CR and space. -/
def isWhitespaceChar (c : Char) : Bool :=
  c = '\x09' || c = '\x0a' || c = '\x0b' || c = '\x0c' || c = '\x0d' || c = ' '

/-- Rust `str::trim`: strip whitespace from both ends. -/
def rustTrim (s : List Char) : List Char :=
  ((s.dropWhile isWhitespaceChar).reverse.dropWhile isWhitespaceChar).reverse

/-- The per-duplicate answer loop of `InteractiveEachChoice::consume_set`
(src/set_consumer.rs lines 199-225).  The input stream is the list of
strings successive `read_remaining` (i.e. `read_line`) calls deliver; an
exhausted stream delivers the empty string, which is the EOF check
`choice_buf.is_empty()` (⇒ `none` = abort).  Otherwise the buffer is
trimmed; `y`/`yes` accepts, `n`/`no` declines (ASCII
case-insensitively); anything else re-prompts on the next read. -/
def askLoop : List (List Char) → Option (Bool × List (List Char))
  | [] => none
  | s :: rest =>
    if s = [] then none
    else if eqIgnoreAsciiCase (rustTrim s) ['y'] ||
        eqIgnoreAsciiCase (rustTrim s) ['y','e','s'] then
      some (true, rest)
    else if eqIgnoreAsciiCase (rustTrim s) ['n'] ||
        eqIgnoreAsciiCase (rustTrim s) ['n','o'] then
      some (false, rest)
    else askLoop rest

/-- The duplicate loop of `InteractiveEachChoice::consume_set`
(src/set_consumer.rs lines 186-239): skip duplicates that no longer
exist; for an existing one run the answer loop; an accepting answer runs
the action (fatal ⇒ abort), a declining answer skips it; EOF aborts the
whole run.  `none` = `Err(AlreadyReportedError)`; otherwise the attempted
action invocations and the unconsumed input. -/
def interLoop (ex : Nat → Bool) (act : Nat → Nat → ActionResult) (orig : Nat) :
    List HashedFile → List (List Char) →
    Option (List (Nat × Nat) × List (List Char))
  | [], inp => some ([], inp)
  | f :: rest, inp =>
    if ex f.file_path then
      match askLoop inp with
      | none => none
      | some (true, inp') =>
        match act f.file_path orig with
        | .fatal => none
        | _ =>
          match interLoop ex act orig rest inp' with
          | none => none
          | some (l, i) => some ((f.file_path, orig) :: l, i)
      | some (false, inp') => interLoop ex act orig rest inp'
    else interLoop ex act orig rest inp

/-- `InteractiveEachChoice::consume_set` (src/set_consumer.rs lines
174-242). -/
def InteractiveEachChoice.consume_set (ex : Nat → Bool)
    (act : Nat → Nat → ActionResult) (set : List HashedFile)
    (inp : List (List Char)) : Option (List (Nat × Nat) × List (List Char)) :=
  match findOriginal ex set with
  | none => some ([], inp)
  | some (orig, dups) => interLoop ex act orig.file_path dups inp

/-! ## File-size parsing (src/parse_cli/parse_file_size.rs) -/

/-- `u64::MAX`. -/
def U64MAX : Nat := 2 ^ 64 - 1

/-- A `u64` `checked_mul` by `m` followed by `checked_add` of `a`:
`none` on overflow. -/
def checkedMulAdd (acc m a : Nat) : Option Nat :=
  if acc * m + a ≤ U64MAX then some (acc * m + a) else none

/-- `parse_number_prefix` (src/parse_cli/parse_file_size.rs lines
94-115): accumulate digits `'0'..='0'+radix-1` into a `u64`, skip `_`,
stop at the first other character and return it with the rest; overflow
is an error.  Rust compares the low byte of the character (`char as u8`)
against the digit bounds but adds the full scalar value minus `'0'`. -/
def parse_number_radix (radix : Nat) :
    Nat → List Char → Except Unit (Nat × List Char)
  | acc, [] => .ok (acc, [])
  | acc, c :: cs =>
    let charb := c.toNat % 256
    if 48 ≤ charb ∧ charb ≤ 48 + radix - 1 then
      match checkedMulAdd acc radix (c.toNat - 48) with
      | none => .error ()
      | some acc' => parse_number_radix radix acc' cs
    else if c = '_' then parse_number_radix radix acc cs
    else .ok (acc, c :: cs)

/-- Rust `char::to_ascii_uppercase`. -/
def asciiUpper (c : Char) : Char :=
  if 'a' ≤ c ∧ c ≤ 'z' then Char.ofNat (c.toNat - 32) else c

/-- `parse_hexadecimal` (src/parse_cli/parse_file_size.rs lines
143-173): accumulate hex digits, tracking in `last_e` whether the
previous digit was `E` (whose value 14 is folded in lazily when another
digit follows, or by the caller at the end); skip `_`; stop at the first
other character.  The code maps the digits `A`-`F` to `char as u8 -
b'A'`, i.e. 0-5.  Returns `(acc, remaining, last_e)`. -/
def parse_hexadecimal :
    Nat → Bool → List Char → Except Unit (Nat × List Char × Bool)
  | acc, lastE, [] => .ok (acc, [], lastE)
  | acc, lastE, c0 :: cs =>
    let c := asciiUpper c0
    if ('0' ≤ c ∧ c ≤ '9') ∨ ('A' ≤ c ∧ c ≤ 'F') then
      match (if lastE then checkedMulAdd acc 16 14 else some acc) with
      | none => .error ()
      | some acc1 =>
        if c = 'E' then parse_hexadecimal acc1 true cs
        else
          match checkedMulAdd acc1 16
            (if '0' ≤ c ∧ c ≤ '9' then c.toNat - 48 else c.toNat - 65) with
          | none => .error ()
          | some acc2 => parse_hexadecimal acc2 false cs
    else if c = '_' then parse_hexadecimal acc lastE cs
    else .ok (acc, c0 :: cs, lastE)

/-- `partial_parse_hexadecimal_filesize` (src/parse_cli/parse_file_size.rs
lines 120-140): finish a trailing `E` (folded as the digit value 14) when
the input ended on it, or recognise the `EB`/`EiB` suffix ambiguity;
otherwise fold the `E` and leave the remainder for the suffix parser. -/
def partial_parse_hexadecimal_filesize (value : List Char) :
    Except Unit (Nat × List Char × Option Nat) :=
  match parse_hexadecimal 0 false value with
  | .error e => .error e
  | .ok (acc0, remaining, lastE) =>
    match (if lastE ∧ remaining = [] then checkedMulAdd acc0 16 14 else some acc0) with
    | none => .error ()
    | some acc1 =>
      if remaining ≠ [] ∧ lastE then
        if remaining = ['i','b'] ∨ remaining = ['i','B'] ∨
            remaining = ['I','b'] ∨ remaining = ['I','B'] then
          .ok (acc1, remaining, some (2 <<< 60))
        else if remaining = ['b'] ∨ remaining = ['B'] then
          .ok (acc1, remaining, some (10 ^ 18))
        else
          match checkedMulAdd acc1 16 14 with
          | none => .error ()
          | some acc2 => .ok (acc2, remaining, none)
      else .ok (acc1, remaining, none)

/-- The suffix table of `FileSizeValueParser::parse_ref`
(src/parse_cli/parse_file_size.rs lines 46-60): the multiplier for each
recognised (lowercase) suffix; `none` is the `unreachable!()` arm. -/
def parse_suffix : List Char → Option Nat
  | [] => some 1
  | ['k','b'] => some (10 ^ 3)
  | ['k','i','b'] => some (2 ^ 10)
  | ['m','b'] => some (10 ^ 6)
  | ['m','i','b'] => some (2 ^ 20)
  | ['g','b'] => some (10 ^ 9)
  | ['g','i','b'] => some (2 ^ 30)
  | ['t','b'] => some (10 ^ 12)
  | ['t','i','b'] => some (2 ^ 40)
  | ['p','b'] => some (10 ^ 15)
  | ['p','i','b'] => some (2 ^ 50)
  | ['e','b'] => some (10 ^ 18)
  | ['e','i','b'] => some (2 ^ 60)
  | _ => none

/-- The clap `PossibleValuesParser` lookup of the suffix: the `minsize`
and `maxsize` arguments set `ignore_case(true)`
(src/parse_cli/mod.rs lines 129 and 135), so a candidate matches a
possible value when their ASCII case-folds coincide; clap hands the
matched raw input (not the canonical possible value) on to the `map`
closure. -/
def suffix_matches (s : List Char) : Bool :=
  [([] : List Char), ['k','b'], ['k','i','b'], ['m','b'], ['m','i','b'],
   ['g','b'], ['g','i','b'], ['t','b'], ['t','i','b'], ['p','b'],
   ['p','i','b'], ['e','b'], ['e','i','b']].any
    (fun v => s.map asciiLower == v)

/-- The radix dispatch of `FileSizeValueParser::parse_ref`
(src/parse_cli/parse_file_size.rs lines 18-29): `0b`/`0B` binary,
`0x`/`0X` hexadecimal (with the `EB` special case), `0o`/`0O` octal,
decimal otherwise. -/
def splitRadix (value : List Char) : Except Unit (Nat × List Char × Option Nat) :=
  match value with
  | '0' :: 'b' :: rest => (parse_number_radix 2 0 rest).map (fun p => (p.1, p.2, none))
  | '0' :: 'B' :: rest => (parse_number_radix 2 0 rest).map (fun p => (p.1, p.2, none))
  | '0' :: 'x' :: rest => partial_parse_hexadecimal_filesize rest
  | '0' :: 'X' :: rest => partial_parse_hexadecimal_filesize rest
  | '0' :: 'o' :: rest => (parse_number_radix 8 0 rest).map (fun p => (p.1, p.2, none))
  | '0' :: 'O' :: rest => (parse_number_radix 8 0 rest).map (fun p => (p.1, p.2, none))
  | _ => (parse_number_radix 10 0 value).map (fun p => (p.1, p.2, none))

/-- `FileSizeValueParser::parse_ref` (src/parse_cli/parse_file_size.rs
lines 15-69): dispatch on the radix marker, determine the multiplier
(`parsed` from the hex `EB` special case, `1` for no suffix, otherwise
the suffix table), and `checked_mul` the literal by it. -/
def FileSizeValueParser.parse (value : List Char) : Except Unit Nat :=
  match splitRadix value with
  | .error e => .error e
  | .ok (fs_literal, rem, parsed) =>
    match
      (match parsed with
       | some p => (.ok p : Except Unit Nat)
       | none =>
         if rem = [] then .ok 1
         else if suffix_matches rem then
           match parse_suffix rem with
           | some m => .ok m
           | none => .error ()
         else .error ()) with
    | .error e => .error e
    | .ok m =>
      if fs_literal * m ≤ U64MAX then .ok (fs_literal * m) else .error ()

/-! ## Theorems -/

theorem chunks64_nil : chunks64 [] = [] := by
  rw [chunks64]
  simp

theorem chunks64_cons (l : List Nat) (h : l ≠ []) :
    chunks64 l = l.take 64 :: chunks64 (l.drop 64) := by
  rw [chunks64]
  simp [h]

theorem chunks64_chunk_le (x : List Nat) : ∀ c ∈ chunks64 x, c.length ≤ 64 := by
  have key : ∀ (n : Nat) (z : List Nat), z.length = n → ∀ c ∈ chunks64 z, c.length ≤ 64 := by
    intro n
    induction n using Nat.strong_induction_on with
    | _ n ih =>
      intro z hn
      by_cases hz : z = []
      · subst hz
        simp [chunks64_nil]
      · rw [chunks64_cons z hz]
        intro c hc
        rcases List.mem_cons.mp hc with hc | hc
        · subst hc
          simp [List.length_take]
        · exact ih (z.drop 64).length
            (by
              simp only [List.length_drop]
              subst hn
              exact Nat.sub_lt (List.length_pos.mpr hz) (by norm_num))
            (z.drop 64) rfl c hc
  exact key x.length x rfl

theorem ceLoop_step (ca cb : List Nat) (ra rb : List (Except Unit (List Nat)))
    (hne : ¬ ca.length = 0) :
    ceLoop (.ok ca :: ra) (.ok cb :: rb) =
      if ca.length ≠ cb.length then .ok false
      else if ca ≠ cb then .ok false
      else ceLoop ra rb := by
  simp [ceLoop, hne]

theorem ceLoop_chunks64 (x y : List Nat) (hlen : x.length = y.length) :
    (ceLoop ((chunks64 x).map .ok) ((chunks64 y).map .ok) = .ok true ↔ x = y) := by
  have key : ∀ (n : Nat) (x y : List Nat), x.length = y.length → x.length = n →
      (ceLoop ((chunks64 x).map .ok) ((chunks64 y).map .ok) = .ok true ↔ x = y) := by
    intro n
    induction n using Nat.strong_induction_on with
    | _ n ih => ?_
    clear x y hlen
    intro x y hlen hn
    by_cases hx : x = []
    · subst hx
      have hy : y = [] := by
        have h0 : y.length = 0 := by simpa using hlen.symm
        exact List.eq_nil_of_length_eq_zero h0
      subst hy
      simp [chunks64_nil, ceLoop]
    · have hy : y ≠ [] := by
        intro hy0
        apply hx
        apply List.eq_nil_of_length_eq_zero
        rw [hlen, hy0]
        rfl
      have hxpos : 0 < x.length := List.length_pos.mpr hx
      rw [chunks64_cons x hx, chunks64_cons y hy]
      have htl : (x.take 64).length = (y.take 64).length := by
        simp [List.length_take, hlen]
      have htne : ¬ (x.take 64).length = 0 := by
        simp only [List.length_take]
        omega
      by_cases htake : x.take 64 = y.take 64
      · have hdlen : (x.drop 64).length = (y.drop 64).length := by
          simp only [List.length_drop]
          omega
        have ihres := ih (x.drop 64).length
          (by
            simp only [List.length_drop]
            omega)
          (x.drop 64) (y.drop 64) hdlen rfl
        have hxy : (x = y) ↔ (x.drop 64 = y.drop 64) := by
          constructor
          · intro h
            rw [h]
          · intro h
            conv_lhs => rw [← List.take_append_drop 64 x]
            rw [htake, h, List.take_append_drop]
        rw [List.map_cons, List.map_cons, ceLoop_step _ _ _ _ htne]
        rw [if_neg (fun hcon => hcon htl), if_neg (fun hcon => hcon htake)]
        rw [ihres, hxy]
      · have hxy : x ≠ y := by
          intro h
          exact htake (by rw [h])
        rw [List.map_cons, List.map_cons, ceLoop_step _ _ _ _ htne]
        rw [if_neg (fun hcon => hcon htl), if_pos htake]
        simp [hxy]
  exact key x.length x y hlen rfl

/-- C3: `FileContentEquals::check_equal` (i) returns `Ok(false)` for
differing sizes whatever the read behaviour, (ii) on intact equal-sized
files returns `Ok(true)` iff the contents coincide, reading through
64-byte chunks, (iii) treats a short read whose length differs from the
other side's as inequality, and (iv) reports open/read errors on `a` as
`Err(First)` and on `b` as `Err(Second)`. -/
theorem C3_content_equals_spec :
    (∀ a b : SideFile, a.openOk = true → b.openOk = true →
      a.metaOk = true → b.metaOk = true → a.size ≠ b.size →
      FileContentEquals.check_equal a b = .ok false) ∧
    (∀ x y : List Nat, x.length = y.length →
      ((fileOf x).size = x.length ∧ (fileOf y).size = y.length ∧
       (∀ c ∈ chunks64 x, c.length ≤ 64) ∧
       (FileContentEquals.check_equal (fileOf x) (fileOf y) = .ok true ↔ x = y))) ∧
    (∀ (a b : SideFile) (ca cb : List Nat) ra rb,
      a.openOk = true → b.openOk = true → a.metaOk = true → b.metaOk = true →
      a.size = b.size → a.reads = .ok ca :: ra → b.reads = .ok cb :: rb →
      ca.length ≠ 0 → ca.length ≠ cb.length →
      FileContentEquals.check_equal a b = .ok false) ∧
    (∀ a b : SideFile, a.openOk = false →
      FileContentEquals.check_equal a b = .error .First) ∧
    (∀ a b : SideFile, a.openOk = true → b.openOk = false →
      FileContentEquals.check_equal a b = .error .Second) ∧
    (∀ (a b : SideFile) e ra, a.openOk = true → b.openOk = true →
      a.metaOk = true → b.metaOk = true → a.size = b.size →
      a.reads = .error e :: ra →
      FileContentEquals.check_equal a b = .error .First) ∧
    (∀ (a b : SideFile) (ca : List Nat) ra e rb,
      a.openOk = true → b.openOk = true → a.metaOk = true → b.metaOk = true →
      a.size = b.size → a.reads = .ok ca :: ra → ca.length ≠ 0 →
      b.reads = .error e :: rb →
      FileContentEquals.check_equal a b = .error .Second) := by
  refine ⟨?_, ?_, ?_, ?_, ?_, ?_, ?_⟩
  · intro a b ha hb hma hmb hsz
    simp [FileContentEquals.check_equal, ha, hb, hma, hmb, hsz]
  · intro x y hlen
    refine ⟨rfl, rfl, chunks64_chunk_le x, ?_⟩
    have heq : FileContentEquals.check_equal (fileOf x) (fileOf y) =
        ceLoop ((chunks64 x).map .ok) ((chunks64 y).map .ok) := by
      simp [FileContentEquals.check_equal, fileOf, hlen]
    rw [heq]
    exact ceLoop_chunks64 x y hlen
  · intro a b ca cb ra rb ha hb hma hmb hsz hra hrb hne hll
    simp [FileContentEquals.check_equal, ha, hb, hma, hmb, hsz, hra, hrb,
      ceLoop, hne, hll]
  · intro a b ha
    simp [FileContentEquals.check_equal, ha]
  · intro a b ha hb
    simp [FileContentEquals.check_equal, ha, hb]
  · intro a b e ra ha hb hma hmb hsz hra
    simp [FileContentEquals.check_equal, ha, hb, hma, hmb, hsz, hra, ceLoop]
  · intro a b ca ra e rb ha hb hma hmb hsz hra hne hrb
    simp [FileContentEquals.check_equal, ha, hb, hma, hmb, hsz, hra, hrb,
      ceLoop, hne]

/-- C3 witness: the theorem applied at concrete inputs. -/
theorem C3_content_equals_spec_witness :
    (FileContentEquals.check_equal ⟨true, true, 1, []⟩ ⟨true, true, 2, []⟩ =
      .ok false) ∧
    (FileContentEquals.check_equal (fileOf [1,2,3]) (fileOf [1,2,3]) = .ok true) ∧
    (FileContentEquals.check_equal ⟨false, true, 0, []⟩ ⟨true, true, 0, []⟩ =
      .error .First) := by
  refine ⟨?_, ?_, ?_⟩
  · exact C3_content_equals_spec.1 ⟨true, true, 1, []⟩ ⟨true, true, 2, []⟩
      rfl rfl rfl rfl (by decide)
  · exact (C3_content_equals_spec.2.1 [1,2,3] [1,2,3] rfl).2.2.2.mpr rfl
  · exact C3_content_equals_spec.2.2.2.1 ⟨false, true, 0, []⟩ ⟨true, true, 0, []⟩ rfl

/-- C1 (code bug evidence): `FileSetRefiners::check_equal` returns `Ok(true)`
even when a refiner reports `Ok(false)`, because the `?` operator discards
the boolean payload; the claim (and the spec's "results are AND-ed")
requires `Ok(false)` here. -/
theorem C1_check_equal_drops_false :
    FileSetRefiners.check_equal [Except.ok false] = Except.ok true := rfl

/-- C2 (code bug evidence): in `place_into_file_set`, when verification
against the set `[1, 2]` fails with `error{first}` on path 1, the code
removes path 1 and immediately appends the incoming path 3 to the set
(`break` where the `TODO replace with retry` comment sits), with no
verification retry against the new first element — even though the same
refiner would report path 3 byte-wise unequal to path 2
(`refLoop ... = .notEqual`), which under the claimed retry semantics
would have kept path 3 out of this set. -/
theorem C2_first_error_appends_without_retry :
    place_into_file_set workItemC2 refinersC2 targetC2 =
      ([(9, [(7, [⟨none, 2⟩, ⟨none, 3⟩])])], false) ∧
    refLoop refinersC2 2 3 = .notEqual := by
  constructor
  · rfl
  · rfl

/-- C4: when the two modification-time snapshots around hashing differ,
`hash_file` returns `FileChanged`, `place_into_file_set` reports
`AlreadyReportedError` (second component `true`), and the shared map is
left untouched — the file is not admitted to any set. -/
theorem C4_modified_file_not_admitted :
    ∀ (w : WorkItem) (b a : Option Nat)
      (refiners : List (Nat → Nat → Except CheckEqualsErrorOn Bool))
      (target : TargetMap),
      w.file.openOk = true → w.file.meta1 = some b → w.file.readOk = true →
      w.file.meta2 = some a → b ≠ a →
      hash_file w.file = .error .FileChanged ∧
      place_into_file_set w refiners target = (target, true) := by
  intro w b a refiners target ho h1 hr h2 hba
  have hh : hash_file w.file = .error .FileChanged := by
    simp [hash_file, ho, h1, hr, h2, hba]
  refine ⟨hh, ?_⟩
  simp [place_into_file_set, hh]

/-- C4 witness: the theorem applied at a concrete input. -/
theorem C4_modified_file_not_admitted_witness :
    hash_file ⟨true, some (some 0), true, some (some 1), 7⟩ =
      .error .FileChanged ∧
    place_into_file_set ⟨⟨true, some (some 0), true, some (some 1), 7⟩, 3, true, 9⟩
      [] [] = ([], true) :=
  C4_modified_file_not_admitted
    ⟨⟨true, some (some 0), true, some (some 1), 7⟩, 3, true, 9⟩
    (some 0) (some 1) [] [] rfl rfl rfl rfl (by decide)

theorem hash_file_changed_cases (f : FsFile)
    (h : hash_file f = .error .FileChanged) :
    f.openOk = true ∧ f.readOk = true ∧
    ∃ b a, f.meta1 = some b ∧ f.meta2 = some a ∧ b ≠ a := by
  by_cases ho : f.openOk = false
  · simp [hash_file, ho] at h
  · have ho' : f.openOk = true := by
      cases hb : f.openOk
      · exact absurd hb ho
      · rfl
    rcases h1 : f.meta1 with _ | b
    · simp [hash_file, ho, h1] at h
    · by_cases hr : f.readOk = false
      · simp [hash_file, ho, h1, hr] at h
      · have hr' : f.readOk = true := by
          cases hb : f.readOk
          · exact absurd hb hr
          · rfl
        rcases h2 : f.meta2 with _ | a
        · simp [hash_file, ho, h1, hr, h2] at h
        · by_cases hba : b = a
          · subst hba
            simp [hash_file, ho, h1, hr, h2] at h
          · exact ⟨ho', hr', b, a, rfl, rfl, hba⟩

/-- C10: `hash_file` returns `FileChanged` exactly when both metadata
reads succeed and the two optional snapshots are unequal as `Option`
values; any missing piece of the environment yields an I/O error instead;
and when the platform exposes no modification time (both snapshots
`some none`), the comparison succeeds and the file is returned with an
absent version timestamp. -/
theorem C10_file_changed_iff :
    (∀ (f : FsFile) (b a : Option Nat), f.openOk = true → f.meta1 = some b →
      f.readOk = true → f.meta2 = some a →
      (hash_file f = .error .FileChanged ↔ b ≠ a)) ∧
    (∀ f : FsFile,
      f.openOk = false ∨ f.meta1 = none ∨ f.readOk = false ∨ f.meta2 = none →
      ¬ hash_file f = .error .FileChanged) ∧
    (∀ f : FsFile, f.openOk = true → f.meta1 = some none → f.readOk = true →
      f.meta2 = some none → hash_file f = .ok (f.contentHash, none)) := by
  refine ⟨?_, ?_, ?_⟩
  · intro f b a ho h1 hr h2
    by_cases hba : b = a
    · subst hba
      simp [hash_file, ho, h1, hr, h2]
    · simp [hash_file, ho, h1, hr, h2, hba]
  · intro f hdisj hcontra
    have hc := hash_file_changed_cases f hcontra
    rcases hc with ⟨ho, hr, b, a, h1, h2, _⟩
    rcases hdisj with h | h | h | h
    · rw [ho] at h
      cases h
    · rw [h1] at h
      cases h
    · rw [hr] at h
      cases h
    · rw [h2] at h
      cases h
  · intro f ho h1 hr h2
    simp [hash_file, ho, h1, hr, h2]

/-- C10 witness: the theorem applied at concrete inputs. -/
theorem C10_file_changed_iff_witness :
    (hash_file ⟨true, some (some 0), true, some (some 1), 5⟩ =
      .error .FileChanged ↔ (some 0 : Option Nat) ≠ some 1) ∧
    hash_file ⟨true, some none, true, some none, 5⟩ = .ok (5, none) := by
  constructor
  · exact C10_file_changed_iff.1 ⟨true, some (some 0), true, some (some 1), 5⟩
      (some 0) (some 1) rfl rfl rfl rfl
  · exact C10_file_changed_iff.2.2 ⟨true, some none, true, some none, 5⟩
      rfl rfl rfl rfl

/-- C6 (code bug evidence): the hexadecimal branch of the file-size
parser maps the digits `a`-`f`/`A`-`F` to `char as u8 - b'A'` (0-5)
instead of 10-15, so parsing the canonical hexadecimal rendering of 10
(`0xa`, in either letter case) yields 0 — while the special-cased `E`
digit (14), the other radices, `_` separators and lowercase suffixes
round-trip as claimed.  An upper- or mixed-case suffix moreover hits the
`unreachable!()` arm of the suffix match (modelled as an error), because
clap's case-insensitive possible-value lookup passes the raw input on. -/
theorem C6_hex_rendering_not_roundtripped :
    FileSizeValueParser.parse ['0','x','a'] = .ok 0 ∧
    FileSizeValueParser.parse ['0','x','A'] = .ok 0 ∧
    (0 : Nat) ≠ 10 ∧
    FileSizeValueParser.parse ['0','x','e'] = .ok 14 ∧
    FileSizeValueParser.parse ['1','0'] = .ok 10 ∧
    FileSizeValueParser.parse ['0','o','1','7'] = .ok 15 ∧
    FileSizeValueParser.parse ['0','b','1','0','1'] = .ok 5 ∧
    FileSizeValueParser.parse ['1','_','0','0','0'] = .ok 1000 ∧
    FileSizeValueParser.parse ['2','k','b'] = .ok 2000 ∧
    FileSizeValueParser.parse ['2','k','i','b'] = .ok 2048 ∧
    FileSizeValueParser.parse ['2','K','i','B'] = .error () := by
  refine ⟨rfl, rfl, by decide, rfl, rfl, rfl, rfl, rfl, rfl, rfl, rfl⟩

/-- C7: every set the finalisation loop hands to
`FileSetConsumer::consume_set` has at least 2 elements: sets of length
≤ 1 are skipped both before and after the ordering stack runs, whatever
the orderings (which may shrink sets by dropping inaccessible files) and
the consumer do. -/
theorem C7_consumed_sets_have_min_two
    (orders : List OrderFn) (consumeOk : List HashedFile → Bool)
    (sets : List (List HashedFile)) :
    ∀ s ∈ finalizeSets orders consumeOk sets, 2 ≤ s.length := by
  induction sets with
  | nil =>
    intro s hs
    simp [finalizeSets] at hs
  | cons hd tl ih =>
    intro s hs
    rw [finalizeSets] at hs
    by_cases h1 : hd.length ≤ 1
    · rw [if_pos h1] at hs
      exact ih s hs
    · rw [if_neg h1] at hs
      by_cases h2 : (runOrders orders hd).length ≤ 1
      · rw [if_pos h2] at hs
        exact ih s hs
      · rw [if_neg h2] at hs
        by_cases h3 : consumeOk (runOrders orders hd) = true
        · rw [if_pos h3] at hs
          rcases List.mem_cons.mp hs with hs | hs
          · subst hs
            omega
          · exact ih s hs
        · rw [if_neg h3] at hs
          rcases List.mem_cons.mp hs with hs | hs
          · subst hs
            omega
          · simp at hs

/-- C7 witness: the theorem applied at a concrete input. -/
theorem C7_consumed_sets_have_min_two_witness :
    [(⟨none, 1⟩ : HashedFile), ⟨none, 2⟩] ∈
      finalizeSets [] (fun _ => true) [[⟨none, 1⟩, ⟨none, 2⟩]] ∧
    2 ≤ ([(⟨none, 1⟩ : HashedFile), ⟨none, 2⟩]).length :=
  ⟨by decide, C7_consumed_sets_have_min_two [] (fun _ => true)
      [[⟨none, 1⟩, ⟨none, 2⟩]] _ (by decide)⟩

theorem findOriginal_none (ex : Nat → Bool) (set : List HashedFile)
    (h : ∀ f ∈ set, ex f.file_path = false) : findOriginal ex set = none := by
  induction set with
  | nil => rfl
  | cons f rest ih =>
    have hf : ex f.file_path = false := h f (List.mem_cons_self f rest)
    simp [findOriginal, hf]
    exact ih fun g hg => h g (List.mem_cons_of_mem f hg)

theorem findOriginal_dropWhile (ex : Nat → Bool) (set : List HashedFile)
    (f : HashedFile) (rest : List HashedFile)
    (h : set.dropWhile (fun g => !(ex g.file_path)) = f :: rest) :
    findOriginal ex set = some (f, rest) := by
  induction set with
  | nil => simp [List.dropWhile] at h
  | cons g gs ih =>
    by_cases hg : ex g.file_path = true
    · rw [List.dropWhile_cons] at h
      simp [hg] at h
      rw [findOriginal, if_pos hg]
      rw [h.1, h.2]
    · have hg' : ex g.file_path = false := by
        cases hb : ex g.file_path
        · rfl
        · exact absurd hb hg
      rw [List.dropWhile_cons] at h
      simp [hg'] at h
      rw [findOriginal, if_neg hg]
      exact ih h

theorem findOriginal_head_exists (ex : Nat → Bool) :
    ∀ (set : List HashedFile) (f : HashedFile) (rest : List HashedFile),
      findOriginal ex set = some (f, rest) → ex f.file_path = true := by
  intro set
  induction set with
  | nil =>
    intro f rest h
    simp [findOriginal] at h
  | cons g gs ih =>
    intro f rest h
    by_cases hg : ex g.file_path = true
    · rw [findOriginal, if_pos hg] at h
      simp at h
      exact h.1 ▸ hg
    · rw [findOriginal, if_neg hg] at h
      exact ih f rest h

theorem uncondLoop_no_fatal (ex : Nat → Bool) (act : Nat → Nat → ActionResult)
    (orig : Nat) (dups : List HashedFile)
    (hact : ∀ p q, act p q ≠ .fatal) :
    uncondLoop ex act orig dups =
      ((dups.filter (fun g => ex g.file_path)).map
        (fun g => (g.file_path, orig)), true) := by
  induction dups with
  | nil => rfl
  | cons f rest ih =>
    by_cases hf : ex f.file_path = true
    · cases hr : act f.file_path orig with
      | fatal => exact absurd hr (hact f.file_path orig)
      | ok => simp [uncondLoop, hf, hr, ih, List.filter_cons]
      | recoverable => simp [uncondLoop, hf, hr, ih, List.filter_cons]
    · have hf' : ex f.file_path = false := by
        cases hb : ex f.file_path
        · rfl
        · exact absurd hb hf
      simp [uncondLoop, hf', ih, List.filter_cons]

/-- C8: the unconditional consumer advances past missing leading set
members to the first still-existing one as the candidate original and
(when no action outcome is fatal) applies the file action to exactly the
remaining duplicates that still exist; a set whose files are all missing
is consumed as a no-op (`Ok`, no action invocations). -/
theorem C8_unconditional_consumer :
    (∀ (ex : Nat → Bool) (act : Nat → Nat → ActionResult)
      (set : List HashedFile),
      (∀ f ∈ set, ex f.file_path = false) →
      UnconditionalAction.consume_set ex act set = ([], true)) ∧
    (∀ (ex : Nat → Bool) (act : Nat → Nat → ActionResult)
      (set : List HashedFile) (f : HashedFile) (rest : List HashedFile),
      (∀ p q, act p q ≠ .fatal) →
      set.dropWhile (fun g => !(ex g.file_path)) = f :: rest →
      ex f.file_path = true ∧
      UnconditionalAction.consume_set ex act set =
        ((rest.filter (fun g => ex g.file_path)).map
          (fun g => (g.file_path, f.file_path)), true)) := by
  constructor
  · intro ex act set h
    rw [UnconditionalAction.consume_set, findOriginal_none ex set h]
  · intro ex act set f rest hact hdw
    have hfo := findOriginal_dropWhile ex set f rest hdw
    refine ⟨findOriginal_head_exists ex set f rest hfo, ?_⟩
    rw [UnconditionalAction.consume_set, hfo]
    exact uncondLoop_no_fatal ex act f.file_path rest hact

/-- C8 witness: the theorem applied at concrete inputs (all files
missing; and a set whose original, path 1, vanished so that path 2 is
the original and the action runs on path 3 only). -/
theorem C8_unconditional_consumer_witness :
    UnconditionalAction.consume_set (fun _ => false) (fun _ _ => .ok)
      [⟨none, 1⟩, ⟨none, 2⟩] = ([], true) ∧
    UnconditionalAction.consume_set (fun p => decide (p ≠ 1)) (fun _ _ => .ok)
      [⟨none, 1⟩, ⟨none, 2⟩, ⟨none, 3⟩] = ([(3, 2)], true) := by
  constructor
  · exact C8_unconditional_consumer.1 (fun _ => false) (fun _ _ => .ok)
      [⟨none, 1⟩, ⟨none, 2⟩] (fun f _ => rfl)
  · exact (C8_unconditional_consumer.2 (fun p => decide (p ≠ 1))
      (fun _ _ => .ok) [⟨none, 1⟩, ⟨none, 2⟩, ⟨none, 3⟩] ⟨none, 2⟩
      [⟨none, 3⟩] (fun p q h => ActionResult.noConfusion h) (by decide)).2

/-- C9: the interactive consumer's answer loop accepts exactly `y`/`yes`
and declines exactly `n`/`no`, ASCII case-insensitively after trimming;
any other non-empty read re-prompts (consuming that read); an empty read
(EOF) aborts; at the consumer level an accepting answer runs the action
on that duplicate, a declining answer skips it, and EOF propagates as an
error out of `consume_set`'s duplicate loop. -/
theorem C9_interactive_consumer :
    (∀ (s : List Char) (rest : List (List Char)), s ≠ [] →
      (eqIgnoreAsciiCase (rustTrim s) ['y'] ||
        eqIgnoreAsciiCase (rustTrim s) ['y','e','s']) = true →
      askLoop (s :: rest) = some (true, rest)) ∧
    (∀ (s : List Char) (rest : List (List Char)), s ≠ [] →
      (eqIgnoreAsciiCase (rustTrim s) ['y'] ||
        eqIgnoreAsciiCase (rustTrim s) ['y','e','s']) = false →
      (eqIgnoreAsciiCase (rustTrim s) ['n'] ||
        eqIgnoreAsciiCase (rustTrim s) ['n','o']) = true →
      askLoop (s :: rest) = some (false, rest)) ∧
    (∀ (s : List Char) (rest : List (List Char)), s ≠ [] →
      (eqIgnoreAsciiCase (rustTrim s) ['y'] ||
        eqIgnoreAsciiCase (rustTrim s) ['y','e','s']) = false →
      (eqIgnoreAsciiCase (rustTrim s) ['n'] ||
        eqIgnoreAsciiCase (rustTrim s) ['n','o']) = false →
      askLoop (s :: rest) = askLoop rest) ∧
    (askLoop [] = none ∧ ∀ rest, askLoop ([] :: rest) = none) ∧
    (∀ (ex : Nat → Bool) (act : Nat → Nat → ActionResult)
       (set : List HashedFile) (f : HashedFile) (rest : List HashedFile)
       (inp : List (List Char)),
      set.dropWhile (fun g => !(ex g.file_path)) = f :: rest →
      InteractiveEachChoice.consume_set ex act set inp =
        interLoop ex act f.file_path rest inp) ∧
    (∀ (ex : Nat → Bool) (act : Nat → Nat → ActionResult) (orig : Nat)
       (f : HashedFile) (rest : List HashedFile) (inp inp' : List (List Char)),
      ex f.file_path = true → askLoop inp = some (true, inp') →
      act f.file_path orig ≠ .fatal →
      interLoop ex act orig (f :: rest) inp =
        (interLoop ex act orig rest inp').map
          (fun li => ((f.file_path, orig) :: li.1, li.2))) ∧
    (∀ (ex : Nat → Bool) (act : Nat → Nat → ActionResult) (orig : Nat)
       (f : HashedFile) (rest : List HashedFile) (inp inp' : List (List Char)),
      ex f.file_path = true → askLoop inp = some (false, inp') →
      interLoop ex act orig (f :: rest) inp = interLoop ex act orig rest inp') ∧
    (∀ (ex : Nat → Bool) (act : Nat → Nat → ActionResult) (orig : Nat)
       (f : HashedFile) (rest : List HashedFile) (inp : List (List Char)),
      ex f.file_path = true → askLoop inp = none →
      interLoop ex act orig (f :: rest) inp = none) := by
  refine ⟨?_, ?_, ?_, ⟨rfl, fun rest => rfl⟩, ?_, ?_, ?_, ?_⟩
  · intro s rest hne hyes
    simp [askLoop, hne, hyes]
  · intro s rest hne hyes hno
    simp [askLoop, hne, hyes, hno]
  · intro s rest hne hyes hno
    simp [askLoop, hne, hyes, hno]
  · intro ex act set f rest inp hdw
    rw [InteractiveEachChoice.consume_set, findOriginal_dropWhile ex set f rest hdw]
  · intro ex act orig f rest inp inp' hex hask hact
    rw [interLoop, if_pos hex]
    rw [hask]
    cases hr : act f.file_path orig with
    | fatal => exact absurd hr hact
    | ok =>
      cases hres : interLoop ex act orig rest inp' <;> simp [hres]
    | recoverable =>
      cases hres : interLoop ex act orig rest inp' <;> simp [hres]
  · intro ex act orig f rest inp inp' hex hask
    rw [interLoop, if_pos hex, hask]
  · intro ex act orig f rest inp hex hask
    rw [interLoop, if_pos hex, hask]

/-- C9 witness: the theorem applied at concrete inputs. -/
theorem C9_interactive_consumer_witness :
    askLoop [['Y'], ['n']] = some (true, [['n']]) ∧
    askLoop [[' ','n','o',' '], ['y']] = some (false, [['y']]) ∧
    askLoop [['m','a','y','b','e'], ['Y','E','S']] = askLoop [['Y','E','S']] ∧
    interLoop (fun _ => true) (fun _ _ => .ok) 1 [⟨none, 2⟩] [] = none := by
  refine ⟨?_, ?_, ?_, ?_⟩
  · exact C9_interactive_consumer.1 ['Y'] [['n']] (by decide) (by decide)
  · exact C9_interactive_consumer.2.1 [' ','n','o',' '] [['y']] (by decide)
      (by decide) (by decide)
  · exact C9_interactive_consumer.2.2.1 ['m','a','y','b','e'] [['Y','E','S']]
      (by decide) (by decide) (by decide)
  · exact C9_interactive_consumer.2.2.2.2.2.2.2 (fun _ => true)
      (fun _ _ => .ok) 1 ⟨none, 2⟩ [] [] rfl rfl

/-- C5 (counterexample): with `--minsize=1` the CLI installs
`MinSizeFileFilter::new(0)` (`1.saturating_sub(1)`), which keeps every file
of size `> 0`, so the size-1 file survives; the claimed survivor set
`{2,3,4}` is wrong. -/
theorem C5_minsize_one_counterexample : sizeSurvivorsMin 1 ≠ [2,3,4] := by decide

/-- C5 (amended): for files of sizes `{0,1,2,3,4}`, `--minsize=1` keeps
`{1,2,3,4}` (the CLI subtracts one before the strict comparison, i.e.
`size >= minsize`), `--minsize=0` keeps `{1,2,3,4}`, `--maxsize=4` keeps
`{0,1,2,3}` and `--maxsize=0` keeps nothing. -/
theorem C5_size_filter_boundaries :
    sizeSurvivorsMin 1 = [1,2,3,4] ∧ sizeSurvivorsMin 0 = [1,2,3,4] ∧
    sizeSurvivorsMax 4 = [0,1,2,3] ∧ sizeSurvivorsMax 0 = [] := by decide

end Duplis
